import Mathlib

/-!
Verification of the Grillz Designer add-on (`grillz_designer_addon.py`).

The add-on's single operator `GRILLZ_OT_GenerateGrill.execute` is embedded
shallowly: the edit-mode BMesh is a list of flagged vertices and faces, the
vertex-correspondence dictionary is an association list, `bmesh`'s
`faces.new` is a fallible constructor, and the Blender context (mode, edit
object, mesh data-blocks, scene objects) is threaded as explicit state.
Scalar modifier settings are modelled as rationals; `FloatProperty`
min/max clamping is the function `clampProp`.
-/

namespace Grillz

/-- A 3D position (model of a Blender float vector). -/
abbrev Vec3 := Rat × Rat × Rat

/-- A source-mesh vertex as seen through BMesh: a position `co` and a
selection flag. -/
structure BMVert where
  co : Vec3
  select : Bool
deriving DecidableEq, Repr

/-- A source-mesh face as seen through BMesh: the ordered list of its
vertices (as indices into the vertex table) and a selection flag. -/
structure BMFace where
  verts : List Nat
  select : Bool
deriving DecidableEq, Repr

/-- The edit-mode BMesh of the source object (`bmesh.from_edit_mesh`). -/
structure BMesh where
  verts : List BMVert
  faces : List BMFace
deriving DecidableEq, Repr

/-- The output BMesh being built (`new_bm`): vertex positions in creation
order, and faces as lists of indices into that vertex table. -/
structure NewBMesh where
  verts : List Vec3
  faces : List (List Nat)
deriving DecidableEq, Repr

/-- Lookup in the vertex-correspondence dictionary `vert_map`
(keys are source-vertex indices, values output-vertex indices). -/
def vmLookup (vm : List (Nat × Nat)) (i : Nat) : Option Nat :=
  match vm with
  | [] => none
  | (k, v) :: rest => if i = k then some v else vmLookup rest i

/-- The position of source vertex `i` (`vert.co`). -/
def vco (src : List BMVert) (i : Nat) : Vec3 :=
  (((src[i]?).map BMVert.co).getD (0, 0, 0))

/-- The inner loop `for vert in face.verts` of the copy step: walk the
face's vertices in winding order; a vertex not yet in `vert_map` is
appended to `new_bm.verts` and entered into the map; the per-face list
`new_verts` collects the corresponding output-vertex indices. -/
def copyFaceVerts (src : List BMVert) :
    List Nat → NewBMesh → List (Nat × Nat) →
    NewBMesh × List (Nat × Nat) × List Nat
  | [], nb, vm => (nb, vm, [])
  | i :: rest, nb, vm =>
    match vmLookup vm i with
    | some j =>
      let r := copyFaceVerts src rest nb vm
      (r.1, r.2.1, j :: r.2.2)
    | none =>
      let j := nb.verts.length
      let r := copyFaceVerts src rest
        { nb with verts := nb.verts ++ [vco src i] } ((i, j) :: vm)
      (r.1, r.2.1, j :: r.2.2)

/-- Whether an existing face uses exactly the vertices of `vs` (set
comparison, winding ignored), as BMesh checks before creating a face. -/
def sameVerts (a b : List Nat) : Bool :=
  a.length = b.length && a.all (fun x => b.contains x)

/-- The call `new_bm.faces.new(new_verts)`: fails (ValueError) on fewer
than 3 vertices, on a repeated vertex, or when the face already exists;
otherwise appends the face. -/
def facesNew (nb : NewBMesh) (vs : List Nat) : Except String NewBMesh :=
  if vs.length < 3 then
    .error "faces.new(verts): sequence needs at least 3 verts"
  else if ¬ vs.Nodup then
    .error "faces.new(verts): found the same (BMVert) used multiple times"
  else if nb.faces.any (fun f => sameVerts f vs) then
    .error "faces.new(verts): face already exists"
  else
    .ok { nb with faces := nb.faces ++ [vs] }

/-- The outer loop `for face in bm.faces: if face.select:` of the copy
step; a ValueError raised by `faces.new` aborts the whole loop. -/
def copyFaces (src : List BMVert) :
    List BMFace → NewBMesh → List (Nat × Nat) →
    Except String (NewBMesh × List (Nat × Nat))
  | [], nb, vm => .ok (nb, vm)
  | f :: rest, nb, vm =>
    if f.select then
      let r := copyFaceVerts src f.verts nb vm
      match facesNew r.1 r.2.2 with
      | .error e => .error e
      | .ok nb2 => copyFaces src rest nb2 r.2.1
    else copyFaces src rest nb vm

/-- Lines 74-96 of the operator: build `new_bm` from the selected faces of
`bm`; if that produced no faces, fall back to copying every selected
vertex. An uncaught ValueError from `faces.new` is the `.error` case. -/
def extract (bm : BMesh) : Except String NewBMesh :=
  match copyFaces bm.verts bm.faces ⟨[], []⟩ [] with
  | .error e => .error e
  | .ok r =>
    if r.1.faces.isEmpty then
      .ok { r.1 with
        verts := r.1.verts ++ (bm.verts.filter (fun v => v.select)).map BMVert.co }
    else .ok r.1

/-- The three operator properties (already clamped by `FloatProperty`). -/
structure Params where
  thickness : Rat
  remesh_voxel_size : Rat
  decimate_ratio : Rat
deriving DecidableEq, Repr

/-- The `FloatProperty` min/max clamping applied when a value is
assigned. -/
def clampProp (lo hi x : Rat) : Rat :=
  if x < lo then lo else if hi < x then hi else x

/-- Assigning raw values to the three operator properties: each is clamped
to its declared [min, max] range. -/
def mkProps (t v r : Rat) : Params :=
  ⟨clampProp (1/5) 5 t, clampProp (1/100) 1 v, clampProp (1/20) 1 r⟩

/-- A modifier attached to the new object, with the settings the code
assigns (kind, name, and numeric/enum/flag parameters). -/
inductive Modifier
  | weld (name : String) (merge_threshold : Rat)
  | solidify (name : String) (thickness offset : Rat)
  | remesh (name mode : String) (voxel_size : Rat) (use_remove_disconnected : Bool)
  | laplaciansmooth (name : String) (iterations : Nat) (use_volume_preserve : Bool)
  | decimate (name : String) (ratio : Rat)
deriving DecidableEq, Repr

/-- Lines 116-141: the five modifiers, in attachment order, with the
settings the code writes. -/
def modifierStack (p : Params) : List Modifier :=
  [ .weld "Grill_Weld" (1/100),
    .solidify "Grill_Thickness" p.thickness 1,
    .remesh "Grill_Remesh" "VOXEL" p.remesh_voxel_size true,
    .laplaciansmooth "Grill_LaplacianSmooth" 5 true,
    .decimate "Grill_Decimate" p.decimate_ratio ]

/-- The object being edited (`context.edit_object`): its type string and,
for meshes, its edit-mode BMesh data. -/
structure EditObject where
  objtype : String
  data : BMesh
deriving DecidableEq, Repr

/-- A scene object created by the operator, with its linked mesh data and
modifier stack. -/
structure SceneObject where
  name : String
  mesh : NewBMesh
  modifiers : List Modifier
  selected : Bool
deriving DecidableEq, Repr

/-- The slice of Blender state the operator reads and writes: the
interaction mode, the edit object, the mesh data-blocks (`bpy.data.meshes`)
and the scene objects the add-on touches, and the active-object name. -/
structure Context where
  mode : String
  edit_object : Option EditObject
  meshes : List (String × NewBMesh)
  objects : List SceneObject
  active_name : Option String
deriving DecidableEq, Repr

/-- Operator outcome: `{'CANCELLED'}` with a warning, `{'FINISHED'}` with
an info report, or an uncaught Python exception. -/
inductive OpResult
  | cancelled (warning : String)
  | finished (info : String)
  | exception (msg : String)
deriving DecidableEq, Repr

/-- The method `GRILLZ_OT_GenerateGrill.execute`: validation, non-destructive copy,
object creation and linking, mode switch plus reselection (modelled as
deselecting the existing objects and appending the selected new one; the
origin recomputation touches no modelled state), and the modifier stack.
On a ValueError from `faces.new` the already-created mesh data-block stays
behind and the exception escapes. -/
def execute (ctx : Context) (p : Params) : Context × OpResult :=
  if ctx.mode ≠ "EDIT_MESH" then
    (ctx, .cancelled "Please switch to Edit Mode to select teeth.")
  else
    match ctx.edit_object with
    | none => (ctx, .cancelled "An editable mesh object must be active.")
    | some so =>
      if so.objtype ≠ "MESH" then
        (ctx, .cancelled "An editable mesh object must be active.")
      else if ¬ so.data.verts.any (fun v => v.select) then
        (ctx, .cancelled "You must select the teeth vertices first.")
      else
        match extract so.data with
        | .error e =>
          ({ ctx with meshes := ctx.meshes ++ [("Grill_Base_Mesh", ⟨[], []⟩)] },
           .exception e)
        | .ok nb =>
          let grill : SceneObject := ⟨"Grill_Base", nb, modifierStack p, true⟩
          ({ ctx with
              mode := "OBJECT",
              meshes := ctx.meshes ++ [("Grill_Base_Mesh", nb)],
              objects := (ctx.objects.map fun o => { o with selected := false }) ++ [grill],
              active_name := some "Grill_Base" },
           .finished "Non-destructively generated Grill_Base object.")

/-! ### Specification-side vocabulary -/

/-- The set of source-vertex indices referenced by the selected faces. -/
def refSet (fs : List BMFace) : Finset Nat :=
  fs.foldr (fun f s => if f.select then f.verts.toFinset ∪ s else s) ∅

/-- The number of distinct source vertices referenced by the selected
faces. -/
def distinctRefCount (bm : BMesh) : Nat := (refSet bm.faces).card

/-- A source BMesh as the host guarantees it: every selected face has at
least 3 vertices, all distinct, and no two selected faces use the same
vertex set. -/
def ValidBMesh (bm : BMesh) : Prop :=
  (∀ f ∈ bm.faces, f.select = true → f.verts.Nodup ∧ 3 ≤ f.verts.length) ∧
  List.Pairwise
    (fun f g => f.select = true → g.select = true →
      f.verts.toFinset ≠ g.verts.toFinset) bm.faces

instance (bm : BMesh) : Decidable (ValidBMesh bm) := by
  unfold ValidBMesh; infer_instance

/-- The key set of the correspondence map. -/
def vmKeys (vm : List (Nat × Nat)) : Finset Nat := (vm.map Prod.fst).toFinset

/-- Invariant of the correspondence map against the output mesh: keys are
distinct, and the values are exactly the output-vertex indices, newest
first. -/
def Inv (nb : NewBMesh) (vm : List (Nat × Nat)) : Prop :=
  (vm.map Prod.fst).Nodup ∧
  vm.map Prod.snd = (List.range nb.verts.length).reverse

/-- The image of a source-vertex set under the correspondence map. -/
def imageVM (vm : List (Nat × Nat)) (s : Finset Nat) : Finset Nat :=
  s.image fun i => (vmLookup vm i).getD 0

/-! ### Basic facts about the correspondence map -/

theorem vmLookup_isSome_iff {vm : List (Nat × Nat)} {i : Nat} :
    (vmLookup vm i).isSome = true ↔ i ∈ vm.map Prod.fst := by
  induction vm with
  | nil => simp [vmLookup]
  | cons p rest ih =>
    obtain ⟨k, v⟩ := p
    by_cases h : i = k <;> simp [vmLookup, h, ih]

theorem mem_of_vmLookup_eq_some {vm : List (Nat × Nat)} {i j : Nat}
    (h : vmLookup vm i = some j) : (i, j) ∈ vm := by
  induction vm with
  | nil => simp [vmLookup] at h
  | cons p rest ih =>
    obtain ⟨k, v⟩ := p
    by_cases hik : i = k
    · subst hik
      simp [vmLookup] at h
      simp [h]
    · simp [vmLookup, hik] at h
      exact List.mem_cons_of_mem _ (ih h)

theorem snd_eq_of_mem_of_fst_nodup {vm : List (Nat × Nat)} {i j j2 : Nat}
    (hnd : (vm.map Prod.fst).Nodup)
    (h1 : (i, j) ∈ vm) (h2 : (i, j2) ∈ vm) : j = j2 := by
  induction vm with
  | nil => simp at h1
  | cons p rest ih =>
    obtain ⟨k, v⟩ := p
    simp only [List.map_cons, List.nodup_cons] at hnd
    rcases List.mem_cons.mp h1 with h1 | h1 <;>
      rcases List.mem_cons.mp h2 with h2 | h2
    · rw [Prod.mk.injEq] at h1 h2
      omega
    · rw [Prod.mk.injEq] at h1
      exact absurd (h1.1 ▸ (List.mem_map.mpr ⟨(i, j2), h2, rfl⟩)) hnd.1
    · rw [Prod.mk.injEq] at h2
      exact absurd (h2.1 ▸ (List.mem_map.mpr ⟨(i, j), h1, rfl⟩)) hnd.1
    · exact ih hnd.2 h1 h2

theorem fst_eq_of_mem_of_snd_nodup {vm : List (Nat × Nat)} {i i2 j : Nat}
    (hnd : (vm.map Prod.snd).Nodup)
    (h1 : (i, j) ∈ vm) (h2 : (i2, j) ∈ vm) : i = i2 := by
  induction vm with
  | nil => simp at h1
  | cons p rest ih =>
    obtain ⟨k, v⟩ := p
    simp only [List.map_cons, List.nodup_cons] at hnd
    rcases List.mem_cons.mp h1 with h1 | h1 <;>
      rcases List.mem_cons.mp h2 with h2 | h2
    · rw [Prod.mk.injEq] at h1 h2
      omega
    · rw [Prod.mk.injEq] at h1
      exact absurd (h1.2 ▸ (List.mem_map.mpr ⟨(i2, j), h2, rfl⟩)) hnd.1
    · rw [Prod.mk.injEq] at h2
      exact absurd (h2.2 ▸ (List.mem_map.mpr ⟨(i, j), h1, rfl⟩)) hnd.1
    · exact ih hnd.2 h1 h2

theorem Inv.fst_nodup {nb : NewBMesh} {vm : List (Nat × Nat)} (h : Inv nb vm) :
    (vm.map Prod.fst).Nodup := h.1

theorem Inv.snd_nodup {nb : NewBMesh} {vm : List (Nat × Nat)} (h : Inv nb vm) :
    (vm.map Prod.snd).Nodup := by
  rw [h.2]
  exact List.nodup_reverse.mpr (List.nodup_range _)

theorem Inv.length_eq {nb : NewBMesh} {vm : List (Nat × Nat)} (h : Inv nb vm) :
    vm.length = nb.verts.length := by
  have := congrArg List.length h.2
  simpa using this

theorem vmLookup_inj {nb : NewBMesh} {vm : List (Nat × Nat)} (h : Inv nb vm)
    {i i2 j : Nat} (h1 : vmLookup vm i = some j) (h2 : vmLookup vm i2 = some j) :
    i = i2 :=
  fst_eq_of_mem_of_snd_nodup h.snd_nodup
    (mem_of_vmLookup_eq_some h1) (mem_of_vmLookup_eq_some h2)

theorem vmLookup_getD_inj {nb : NewBMesh} {vm : List (Nat × Nat)} (h : Inv nb vm)
    {i i2 : Nat} (h1 : (vmLookup vm i).isSome = true)
    (h2 : (vmLookup vm i2).isSome = true)
    (he : (vmLookup vm i).getD 0 = (vmLookup vm i2).getD 0) : i = i2 := by
  obtain ⟨j, hj⟩ := Option.isSome_iff_exists.mp h1
  obtain ⟨j2, hj2⟩ := Option.isSome_iff_exists.mp h2
  rw [hj, hj2] at he
  simp at he
  exact vmLookup_inj h hj (he ▸ hj2)

/-! ### Facts about the inner copy loop `copyFaceVerts` -/

theorem cfv_faces (src : List BMVert) :
    ∀ (fv : List Nat) (nb : NewBMesh) (vm : List (Nat × Nat)),
    (copyFaceVerts src fv nb vm).1.faces = nb.faces := by
  intro fv
  induction fv with
  | nil => intro nb vm; rfl
  | cons i rest ih =>
    intro nb vm
    cases h : vmLookup vm i with
    | some j => simpa [copyFaceVerts, h] using ih nb vm
    | none => simpa [copyFaceVerts, h] using ih _ _

theorem cfv_verts_ext (src : List BMVert) :
    ∀ (fv : List Nat) (nb : NewBMesh) (vm : List (Nat × Nat)),
    ∃ ext, (copyFaceVerts src fv nb vm).1.verts = nb.verts ++ ext := by
  intro fv
  induction fv with
  | nil => intro nb vm; exact ⟨[], by simp [copyFaceVerts]⟩
  | cons i rest ih =>
    intro nb vm
    cases h : vmLookup vm i with
    | some j =>
      obtain ⟨ext, hext⟩ := ih nb vm
      exact ⟨ext, by simpa [copyFaceVerts, h] using hext⟩
    | none =>
      obtain ⟨ext, hext⟩ :=
        ih { nb with verts := nb.verts ++ [vco src i] } ((i, nb.verts.length) :: vm)
      refine ⟨vco src i :: ext, ?_⟩
      simp only [copyFaceVerts, h]
      simpa using hext

theorem cfv_mono (src : List BMVert) :
    ∀ (fv : List Nat) (nb : NewBMesh) (vm : List (Nat × Nat)) (i j : Nat),
    vmLookup vm i = some j → vmLookup (copyFaceVerts src fv nb vm).2.1 i = some j := by
  intro fv
  induction fv with
  | nil => intro nb vm i j h; simpa [copyFaceVerts] using h
  | cons x rest ih =>
    intro nb vm i j h
    cases hx : vmLookup vm x with
    | some jx => simpa [copyFaceVerts, hx] using ih nb vm i j h
    | none =>
      have hix : i ≠ x := by
        intro he; rw [he, hx] at h; exact Option.noConfusion h
      have h2 : vmLookup ((x, nb.verts.length) :: vm) i = some j := by
        simp [vmLookup, hix, h]
      simpa [copyFaceVerts, hx] using
        ih { nb with verts := nb.verts ++ [vco src x] } _ i j h2

theorem cfv_inv (src : List BMVert) :
    ∀ (fv : List Nat) (nb : NewBMesh) (vm : List (Nat × Nat)),
    Inv nb vm → Inv (copyFaceVerts src fv nb vm).1 (copyFaceVerts src fv nb vm).2.1 := by
  intro fv
  induction fv with
  | nil => intro nb vm h; simpa [copyFaceVerts] using h
  | cons i rest ih =>
    intro nb vm h
    cases hx : vmLookup vm i with
    | some j => simpa [copyFaceVerts, hx] using ih nb vm h
    | none =>
      have hnotmem : i ∉ vm.map Prod.fst := by
        intro hmem
        have := vmLookup_isSome_iff.mpr hmem
        rw [hx] at this
        simp at this
      have h2 : Inv { nb with verts := nb.verts ++ [vco src i] }
          ((i, nb.verts.length) :: vm) := by
        constructor
        · simp only [List.map_cons, List.nodup_cons]
          exact ⟨hnotmem, h.1⟩
        · simp only [List.map_cons, h.2]
          simp [List.range_succ]
      simpa [copyFaceVerts, hx] using ih _ _ h2

theorem cfv_keys (src : List BMVert) :
    ∀ (fv : List Nat) (nb : NewBMesh) (vm : List (Nat × Nat)) (x : Nat),
    (vmLookup (copyFaceVerts src fv nb vm).2.1 x).isSome = true ↔
      (vmLookup vm x).isSome = true ∨ x ∈ fv := by
  intro fv
  induction fv with
  | nil => intro nb vm x; simp [copyFaceVerts]
  | cons i rest ih =>
    intro nb vm x
    cases hx : vmLookup vm i with
    | some j =>
      have hr := ih nb vm x
      simp only [copyFaceVerts, hx]
      rw [hr]
      constructor
      · rintro (h | h)
        · exact Or.inl h
        · exact Or.inr (List.mem_cons_of_mem _ h)
      · rintro (h | h)
        · exact Or.inl h
        · rcases List.mem_cons.mp h with h | h
          · subst h; left; simp [hx]
          · exact Or.inr h
    | none =>
      have hr := ih { nb with verts := nb.verts ++ [vco src i] }
        ((i, nb.verts.length) :: vm) x
      simp only [copyFaceVerts, hx]
      rw [hr]
      by_cases hxi : x = i
      · subst hxi
        simp [vmLookup]
      · simp [vmLookup, hxi]

theorem cfv_ns (src : List BMVert) :
    ∀ (fv : List Nat) (nb : NewBMesh) (vm : List (Nat × Nat)),
    (copyFaceVerts src fv nb vm).2.2 =
      fv.map (fun i => (vmLookup (copyFaceVerts src fv nb vm).2.1 i).getD 0) := by
  intro fv
  induction fv with
  | nil => intro nb vm; simp [copyFaceVerts]
  | cons i rest ih =>
    intro nb vm
    cases hx : vmLookup vm i with
    | some j =>
      have hmono := cfv_mono src rest nb vm i j hx
      simp only [copyFaceVerts, hx, List.map_cons]
      rw [hmono]
      simpa using ih nb vm
    | none =>
      have hx2 : vmLookup ((i, nb.verts.length) :: vm) i = some nb.verts.length := by
        simp [vmLookup]
      have hmono := cfv_mono src rest { nb with verts := nb.verts ++ [vco src i] }
        ((i, nb.verts.length) :: vm) i nb.verts.length hx2
      simp only [copyFaceVerts, hx, List.map_cons]
      rw [hmono]
      simpa using ih { nb with verts := nb.verts ++ [vco src i] }
        ((i, nb.verts.length) :: vm)

theorem cfv_new_in_ns (src : List BMVert) :
    ∀ (fv : List Nat) (nb : NewBMesh) (vm : List (Nat × Nat)) (j : Nat),
    nb.verts.length ≤ j → j < (copyFaceVerts src fv nb vm).1.verts.length →
    j ∈ (copyFaceVerts src fv nb vm).2.2 := by
  intro fv
  induction fv with
  | nil =>
    intro nb vm j h1 h2
    simp [copyFaceVerts] at h2
    omega
  | cons i rest ih =>
    intro nb vm j h1 h2
    cases hx : vmLookup vm i with
    | some jx =>
      simp only [copyFaceVerts, hx] at h2 ⊢
      exact List.mem_cons_of_mem _ (ih nb vm j h1 h2)
    | none =>
      simp only [copyFaceVerts, hx] at h2 ⊢
      by_cases hj : j = nb.verts.length
      · subst hj
        exact List.mem_cons_self _ _
      · refine List.mem_cons_of_mem _
          (ih { nb with verts := nb.verts ++ [vco src i] } _ j ?_ h2)
        simp
        omega

/-! ### Facts about face creation -/

theorem sameVerts_iff {a b : List Nat} (ha : a.Nodup) (hb : b.Nodup) :
    sameVerts a b = true ↔ a.toFinset = b.toFinset := by
  simp only [sameVerts, Bool.and_eq_true, decide_eq_true_eq, List.all_eq_true,
    List.elem_iff]
  constructor
  · rintro ⟨hlen, hsub⟩
    apply Finset.eq_of_subset_of_card_le
    · intro x hx
      exact List.mem_toFinset.mpr (hsub x (List.mem_toFinset.mp hx))
    · rw [List.toFinset_card_of_nodup ha, List.toFinset_card_of_nodup hb, hlen]
  · intro h
    constructor
    · rw [← List.toFinset_card_of_nodup ha, ← List.toFinset_card_of_nodup hb, h]
    · intro x hx
      exact List.mem_toFinset.mp (h ▸ List.mem_toFinset.mpr hx)

theorem facesNew_ok {nb nb2 : NewBMesh} {vs : List Nat}
    (h : facesNew nb vs = .ok nb2) :
    nb2 = { nb with faces := nb.faces ++ [vs] } ∧ 3 ≤ vs.length ∧ vs.Nodup ∧
      ∀ e ∈ nb.faces, ¬ sameVerts e vs = true := by
  unfold facesNew at h
  split_ifs at h with h1 h2 h3
  · refine ⟨by injection h with h; exact h.symm, by omega, h2, ?_⟩
    intro e he hc
    exact h3 (List.any_eq_true.mpr ⟨e, he, hc⟩)

theorem facesNew_eq_ok {nb : NewBMesh} {vs : List Nat}
    (h1 : 3 ≤ vs.length) (h2 : vs.Nodup)
    (h3 : ∀ e ∈ nb.faces, ¬ sameVerts e vs = true) :
    facesNew nb vs = .ok { nb with faces := nb.faces ++ [vs] } := by
  unfold facesNew
  rw [if_neg (by omega), if_neg (by simpa using h2), if_neg]
  simpa [List.any_eq_true] using h3

theorem list_toFinset_map (l : List Nat) (f : Nat → Nat) :
    (l.map f).toFinset = l.toFinset.image f := by
  ext x
  simp

/-! ### Facts about the map image of a vertex set -/

theorem imageVM_stable {vm vm2 : List (Nat × Nat)} {s : Finset Nat}
    (hs : ∀ i ∈ s, (vmLookup vm i).isSome = true)
    (hmono : ∀ i j, vmLookup vm i = some j → vmLookup vm2 i = some j) :
    imageVM vm2 s = imageVM vm s := by
  unfold imageVM
  apply Finset.image_congr
  intro i hi
  obtain ⟨j, hj⟩ := Option.isSome_iff_exists.mp (hs i (Finset.mem_coe.mp hi))
  show (vmLookup vm2 i).getD 0 = (vmLookup vm i).getD 0
  rw [hj, hmono i j hj]

theorem imageVM_subset {nb : NewBMesh} {vm : List (Nat × Nat)} (hInv : Inv nb vm)
    {s t : Finset Nat}
    (hs : ∀ i ∈ s, (vmLookup vm i).isSome = true)
    (ht : ∀ i ∈ t, (vmLookup vm i).isSome = true)
    (h : imageVM vm s = imageVM vm t) : s ⊆ t := by
  intro i hi
  have hmem : (vmLookup vm i).getD 0 ∈ imageVM vm t := by
    rw [← h]
    exact Finset.mem_image_of_mem _ hi
  obtain ⟨i2, hi2, he⟩ := Finset.mem_image.mp hmem
  have := vmLookup_getD_inj hInv (ht i2 hi2) (hs i hi) he
  rwa [this] at hi2

theorem imageVM_inj {nb : NewBMesh} {vm : List (Nat × Nat)} (hInv : Inv nb vm)
    {s t : Finset Nat}
    (hs : ∀ i ∈ s, (vmLookup vm i).isSome = true)
    (ht : ∀ i ∈ t, (vmLookup vm i).isSome = true)
    (h : imageVM vm s = imageVM vm t) : s = t :=
  Finset.Subset.antisymm (imageVM_subset hInv hs ht h)
    (imageVM_subset hInv ht hs h.symm)

/-! ### Facts about the outer copy loop `copyFaces` -/

theorem refSet_cons (f : BMFace) (rest : List BMFace) :
    refSet (f :: rest) =
      if f.select = true then f.verts.toFinset ∪ refSet rest else refSet rest := by
  simp [refSet]

theorem mem_refSet {fs : List BMFace} {x : Nat} :
    x ∈ refSet fs ↔ ∃ f ∈ fs, f.select = true ∧ x ∈ f.verts := by
  induction fs with
  | nil => simp [refSet]
  | cons f rest ih =>
    rw [refSet_cons]
    by_cases hsel : f.select = true
    · rw [if_pos hsel]
      simp only [Finset.mem_union, List.mem_toFinset, ih, List.mem_cons]
      constructor
      · rintro (h | h)
        · exact ⟨f, Or.inl rfl, hsel, h⟩
        · obtain ⟨g, hg, h1, h2⟩ := h
          exact ⟨g, Or.inr hg, h1, h2⟩
      · rintro ⟨g, hg | hg, h1, h2⟩
        · subst hg; exact Or.inl h2
        · exact Or.inr ⟨g, hg, h1, h2⟩
    · rw [if_neg hsel]
      simp only [ih, List.mem_cons]
      constructor
      · rintro ⟨g, hg, h1, h2⟩
        exact ⟨g, Or.inr hg, h1, h2⟩
      · rintro ⟨g, hg | hg, h1, h2⟩
        · subst hg; exact absurd h1 hsel
        · exact ⟨g, hg, h1, h2⟩

theorem copyFaces_mono (src : List BMVert) :
    ∀ (fs : List BMFace) (nb : NewBMesh) (vm : List (Nat × Nat))
      (nb2 : NewBMesh) (vm2 : List (Nat × Nat)) (i j : Nat),
    copyFaces src fs nb vm = .ok (nb2, vm2) →
    vmLookup vm i = some j → vmLookup vm2 i = some j := by
  intro fs
  induction fs with
  | nil =>
    intro nb vm nb2 vm2 i j h hl
    simp only [copyFaces, Except.ok.injEq, Prod.mk.injEq] at h
    rw [← h.2]
    exact hl
  | cons f rest ih =>
    intro nb vm nb2 vm2 i j h hl
    by_cases hsel : f.select = true
    · simp only [copyFaces, hsel, if_true] at h
      cases hfn : facesNew (copyFaceVerts src f.verts nb vm).1
          (copyFaceVerts src f.verts nb vm).2.2 with
      | error e => rw [hfn] at h; exact Except.noConfusion h
      | ok nbf =>
        rw [hfn] at h
        exact ih nbf _ nb2 vm2 i j h (cfv_mono src f.verts nb vm i j hl)
    · simp only [copyFaces, hsel, if_false] at h
      exact ih nb vm nb2 vm2 i j h hl

theorem copyFaces_inv (src : List BMVert) :
    ∀ (fs : List BMFace) (nb : NewBMesh) (vm : List (Nat × Nat))
      (nb2 : NewBMesh) (vm2 : List (Nat × Nat)),
    copyFaces src fs nb vm = .ok (nb2, vm2) → Inv nb vm → Inv nb2 vm2 := by
  intro fs
  induction fs with
  | nil =>
    intro nb vm nb2 vm2 h hInv
    simp only [copyFaces, Except.ok.injEq, Prod.mk.injEq] at h
    rw [← h.1, ← h.2]
    exact hInv
  | cons f rest ih =>
    intro nb vm nb2 vm2 h hInv
    by_cases hsel : f.select = true
    · simp only [copyFaces, hsel, if_true] at h
      cases hfn : facesNew (copyFaceVerts src f.verts nb vm).1
          (copyFaceVerts src f.verts nb vm).2.2 with
      | error e => rw [hfn] at h; exact Except.noConfusion h
      | ok nbf =>
        rw [hfn] at h
        have hInv2 := cfv_inv src f.verts nb vm hInv
        have hfo := facesNew_ok hfn
        have hInv3 : Inv nbf (copyFaceVerts src f.verts nb vm).2.1 := by
          rw [hfo.1]
          exact ⟨hInv2.1, hInv2.2⟩
        exact ih nbf _ nb2 vm2 h hInv3
    · simp only [copyFaces, hsel, if_false] at h
      exact ih nb vm nb2 vm2 h hInv

theorem copyFaces_keys (src : List BMVert) :
    ∀ (fs : List BMFace) (nb : NewBMesh) (vm : List (Nat × Nat))
      (nb2 : NewBMesh) (vm2 : List (Nat × Nat)),
    copyFaces src fs nb vm = .ok (nb2, vm2) →
    ∀ x, (vmLookup vm2 x).isSome = true ↔
      (vmLookup vm x).isSome = true ∨ ∃ f ∈ fs, f.select = true ∧ x ∈ f.verts := by
  intro fs
  induction fs with
  | nil =>
    intro nb vm nb2 vm2 h x
    simp only [copyFaces, Except.ok.injEq, Prod.mk.injEq] at h
    rw [← h.2]
    simp
  | cons f rest ih =>
    intro nb vm nb2 vm2 h x
    by_cases hsel : f.select = true
    · simp only [copyFaces, hsel, if_true] at h
      cases hfn : facesNew (copyFaceVerts src f.verts nb vm).1
          (copyFaceVerts src f.verts nb vm).2.2 with
      | error e => rw [hfn] at h; exact Except.noConfusion h
      | ok nbf =>
        rw [hfn] at h
        rw [ih nbf _ nb2 vm2 h x, cfv_keys src f.verts nb vm x]
        constructor
        · rintro ((h1 | h1) | h1)
          · exact Or.inl h1
          · exact Or.inr ⟨f, List.mem_cons_self _ _, hsel, h1⟩
          · obtain ⟨g, hg, hg1, hg2⟩ := h1
            exact Or.inr ⟨g, List.mem_cons_of_mem _ hg, hg1, hg2⟩
        · rintro (h1 | ⟨g, hg, hg1, hg2⟩)
          · exact Or.inl (Or.inl h1)
          · rcases List.mem_cons.mp hg with hg | hg
            · subst hg; exact Or.inl (Or.inr hg2)
            · exact Or.inr ⟨g, hg, hg1, hg2⟩
    · simp only [copyFaces, hsel, if_false] at h
      rw [ih nb vm nb2 vm2 h x]
      constructor
      · rintro (h1 | ⟨g, hg, hg1, hg2⟩)
        · exact Or.inl h1
        · exact Or.inr ⟨g, List.mem_cons_of_mem _ hg, hg1, hg2⟩
      · rintro (h1 | ⟨g, hg, hg1, hg2⟩)
        · exact Or.inl h1
        · rcases List.mem_cons.mp hg with hg | hg
          · subst hg; exact absurd hg1 hsel
          · exact Or.inr ⟨g, hg, hg1, hg2⟩

theorem copyFaces_faces (src : List BMVert) :
    ∀ (fs : List BMFace) (nb : NewBMesh) (vm : List (Nat × Nat))
      (nb2 : NewBMesh) (vm2 : List (Nat × Nat)),
    copyFaces src fs nb vm = .ok (nb2, vm2) →
    nb2.faces = nb.faces ++ (fs.filter fun f => f.select).map
      (fun f => f.verts.map fun i => (vmLookup vm2 i).getD 0) := by
  intro fs
  induction fs with
  | nil =>
    intro nb vm nb2 vm2 h
    simp only [copyFaces, Except.ok.injEq, Prod.mk.injEq] at h
    rw [← h.1]
    simp
  | cons f rest ih =>
    intro nb vm nb2 vm2 h
    by_cases hsel : f.select = true
    · simp only [copyFaces, hsel, if_true] at h
      cases hfn : facesNew (copyFaceVerts src f.verts nb vm).1
          (copyFaceVerts src f.verts nb vm).2.2 with
      | error e => rw [hfn] at h; exact Except.noConfusion h
      | ok nbf =>
        rw [hfn] at h
        have hrec := ih nbf _ nb2 vm2 h
        have hfo := facesNew_ok hfn
        have hnbf : nbf.faces = nb.faces ++ [(copyFaceVerts src f.verts nb vm).2.2] := by
          rw [hfo.1]
          simp [cfv_faces]
        have hns : (copyFaceVerts src f.verts nb vm).2.2 =
            f.verts.map (fun i => (vmLookup vm2 i).getD 0) := by
          rw [cfv_ns src f.verts nb vm]
          apply List.map_congr_left
          intro i hi
          have hsome : (vmLookup (copyFaceVerts src f.verts nb vm).2.1 i).isSome = true :=
            (cfv_keys src f.verts nb vm i).mpr (Or.inr hi)
          obtain ⟨j, hj⟩ := Option.isSome_iff_exists.mp hsome
          rw [hj, copyFaces_mono src rest nbf _ nb2 vm2 i j h hj]
        rw [hrec, hnbf, hns]
        simp [List.filter_cons, hsel]
    · simp only [copyFaces, hsel, if_false] at h
      rw [ih nb vm nb2 vm2 h]
      simp [List.filter_cons, hsel]

theorem copyFaces_noSel (src : List BMVert) :
    ∀ (fs : List BMFace) (nb : NewBMesh) (vm : List (Nat × Nat)),
    (∀ f ∈ fs, f.select = false) →
    copyFaces src fs nb vm = .ok (nb, vm) := by
  intro fs
  induction fs with
  | nil => intro nb vm _; rfl
  | cons f rest ih =>
    intro nb vm h
    have hf : f.select = false := h f (List.mem_cons_self _ _)
    simp only [copyFaces, hf]
    exact ih nb vm fun g hg => h g (List.mem_cons_of_mem _ hg)

theorem copyFaces_cover (src : List BMVert) :
    ∀ (fs : List BMFace) (nb : NewBMesh) (vm : List (Nat × Nat))
      (nb2 : NewBMesh) (vm2 : List (Nat × Nat)),
    copyFaces src fs nb vm = .ok (nb2, vm2) →
    (∀ j, j < nb.verts.length → ∃ e ∈ nb.faces, j ∈ e) →
    ∀ j, j < nb2.verts.length → ∃ e ∈ nb2.faces, j ∈ e := by
  intro fs
  induction fs with
  | nil =>
    intro nb vm nb2 vm2 h hcov j hj
    simp only [copyFaces, Except.ok.injEq, Prod.mk.injEq] at h
    rw [← h.1] at hj ⊢
    exact hcov j hj
  | cons f rest ih =>
    intro nb vm nb2 vm2 h hcov j hj
    by_cases hsel : f.select = true
    · simp only [copyFaces, hsel, if_true] at h
      cases hfn : facesNew (copyFaceVerts src f.verts nb vm).1
          (copyFaceVerts src f.verts nb vm).2.2 with
      | error e => rw [hfn] at h; exact Except.noConfusion h
      | ok nbf =>
        rw [hfn] at h
        have hfo := facesNew_ok hfn
        have hcov2 : ∀ k, k < nbf.verts.length → ∃ e ∈ nbf.faces, k ∈ e := by
          intro k hk
          have hfaces : nbf.faces = nb.faces ++ [(copyFaceVerts src f.verts nb vm).2.2] := by
            rw [hfo.1]
            simp [cfv_faces]
          have hverts : nbf.verts = (copyFaceVerts src f.verts nb vm).1.verts := by
            rw [hfo.1]
          by_cases hlt : k < nb.verts.length
          · obtain ⟨e, he, hke⟩ := hcov k hlt
            exact ⟨e, by rw [hfaces]; exact List.mem_append_left _ he, hke⟩
          · refine ⟨(copyFaceVerts src f.verts nb vm).2.2, ?_, ?_⟩
            · rw [hfaces]
              exact List.mem_append_right _ (List.mem_cons_self _ _)
            · exact cfv_new_in_ns src f.verts nb vm k (by omega) (hverts ▸ hk)
        exact ih nbf _ nb2 vm2 h hcov2 j hj
    · simp only [copyFaces, hsel, if_false] at h
      exact ih nb vm nb2 vm2 h hcov j hj

/-- Success of the copy loop on host-valid input, generalized over the
source vertex sets `dn` of the faces already created in `nb`. -/
theorem copyFaces_ok_of_valid (src : List BMVert) :
    ∀ (fs : List BMFace) (nb : NewBMesh) (vm : List (Nat × Nat))
      (dn : List (Finset Nat)),
    Inv nb vm →
    (∀ s ∈ dn, ∀ i ∈ s, (vmLookup vm i).isSome = true) →
    nb.faces.map List.toFinset = dn.map (imageVM vm) →
    (∀ e ∈ nb.faces, e.Nodup) →
    (∀ f ∈ fs, f.select = true →
      f.verts.Nodup ∧ 3 ≤ f.verts.length ∧ f.verts.toFinset ∉ dn) →
    List.Pairwise (fun f g => f.select = true → g.select = true →
      f.verts.toFinset ≠ g.verts.toFinset) fs →
    ∃ nb2 vm2, copyFaces src fs nb vm = .ok (nb2, vm2) := by
  intro fs
  induction fs with
  | nil => intro nb vm dn _ _ _ _ _ _; exact ⟨nb, vm, rfl⟩
  | cons f rest ih =>
    intro nb vm dn hInv hdn hmapeq hnodups hfs hpw
    obtain ⟨hhead, htail⟩ := List.pairwise_cons.mp hpw
    by_cases hsel : f.select = true
    · obtain ⟨hfnd, hflen, hfnot⟩ := hfs f (List.mem_cons_self _ _) hsel
      have hInv1 : Inv (copyFaceVerts src f.verts nb vm).1
          (copyFaceVerts src f.verts nb vm).2.1 := cfv_inv src f.verts nb vm hInv
      have hkeys1 : ∀ i ∈ f.verts,
          (vmLookup (copyFaceVerts src f.verts nb vm).2.1 i).isSome = true :=
        fun i hi => (cfv_keys src f.verts nb vm i).mpr (Or.inr hi)
      have hmono1 : ∀ i j, vmLookup vm i = some j →
          vmLookup (copyFaceVerts src f.verts nb vm).2.1 i = some j :=
        cfv_mono src f.verts nb vm
      have hkeys0 : ∀ s ∈ dn, ∀ i ∈ s,
          (vmLookup (copyFaceVerts src f.verts nb vm).2.1 i).isSome = true := by
        intro s hs i hi
        obtain ⟨j, hj⟩ := Option.isSome_iff_exists.mp (hdn s hs i hi)
        rw [hmono1 i j hj]
        rfl
      have hnsnd : (copyFaceVerts src f.verts nb vm).2.2.Nodup := by
        rw [cfv_ns src f.verts nb vm]
        refine List.Nodup.map_on ?_ hfnd
        intro x hx y hy hxy
        exact vmLookup_getD_inj hInv1 (hkeys1 x hx) (hkeys1 y hy) hxy
      have hnslen : 3 ≤ (copyFaceVerts src f.verts nb vm).2.2.length := by
        rw [cfv_ns src f.verts nb vm]
        simpa using hflen
      have hnsim : (copyFaceVerts src f.verts nb vm).2.2.toFinset =
          imageVM (copyFaceVerts src f.verts nb vm).2.1 f.verts.toFinset := by
        rw [cfv_ns src f.verts nb vm, list_toFinset_map]
        rfl
      have hnomatch : ∀ e ∈ (copyFaceVerts src f.verts nb vm).1.faces,
          ¬ sameVerts e (copyFaceVerts src f.verts nb vm).2.2 = true := by
        rw [cfv_faces src f.verts nb vm]
        intro e he hc
        rw [sameVerts_iff (hnodups e he) hnsnd] at hc
        have hmem : e.toFinset ∈ dn.map (imageVM vm) := by
          rw [← hmapeq]
          exact List.mem_map.mpr ⟨e, he, rfl⟩
        obtain ⟨s, hs, hse⟩ := List.mem_map.mp hmem
        have hst : imageVM (copyFaceVerts src f.verts nb vm).2.1 s = imageVM vm s :=
          imageVM_stable (hdn s hs) hmono1
        have heq : imageVM (copyFaceVerts src f.verts nb vm).2.1 s =
            imageVM (copyFaceVerts src f.verts nb vm).2.1 f.verts.toFinset := by
          rw [hst, hse, hc, hnsim]
        have : s = f.verts.toFinset := by
          refine imageVM_inj hInv1 ?_ ?_ heq

          · intro i hi
            exact hkeys0 s hs i hi
          · intro i hi
            exact hkeys1 i (List.mem_toFinset.mp hi)
        exact hfnot (this ▸ hs)
      have hfn := facesNew_eq_ok hnslen hnsnd hnomatch
      simp only [copyFaces, hsel, if_true, hfn]
      refine ih _ _ (dn ++ [f.verts.toFinset]) ?_ ?_ ?_ ?_ ?_ htail
      · exact ⟨hInv1.1, hInv1.2⟩
      · intro s hs i hi
        rcases List.mem_append.mp hs with hs | hs
        · exact hkeys0 s hs i hi
        · rw [List.mem_singleton.mp hs] at hi
          exact hkeys1 i (List.mem_toFinset.mp hi)
      · show ((copyFaceVerts src f.verts nb vm).1.faces ++
            [(copyFaceVerts src f.verts nb vm).2.2]).map List.toFinset =
          (dn ++ [f.verts.toFinset]).map (imageVM (copyFaceVerts src f.verts nb vm).2.1)
        rw [List.map_append, List.map_append, cfv_faces src f.verts nb vm, hmapeq]
        congr 1
        · apply List.map_congr_left
          intro s hs
          exact (imageVM_stable (hdn s hs) hmono1).symm
        · simpa using hnsim
      · intro e he
        rcases List.mem_append.mp he with he | he
        · exact hnodups e ((cfv_faces src f.verts nb vm) ▸ he)
        · rw [List.mem_singleton.mp he]
          exact hnsnd
      · intro g hg hgsel
        obtain ⟨h1, h2, h3⟩ := hfs g (List.mem_cons_of_mem _ hg) hgsel
        refine ⟨h1, h2, ?_⟩
        intro hmem
        rcases List.mem_append.mp hmem with hmem | hmem
        · exact h3 hmem
        · exact hhead g hg hsel hgsel (List.mem_singleton.mp hmem).symm
    · simp only [copyFaces, hsel, if_false]
      exact ih nb vm dn hInv hdn hmapeq hnodups
        (fun g hg => hfs g (List.mem_cons_of_mem _ hg)) htail

/-! ### Putting the copy loop together: facts about `extract` -/

theorem Inv_empty : Inv ⟨[], []⟩ [] := by
  constructor
  · exact List.nodup_nil
  · simp

theorem copyFaces_count_verts {bm : BMesh} {nb2 : NewBMesh} {vm2 : List (Nat × Nat)}
    (h : copyFaces bm.verts bm.faces ⟨[], []⟩ [] = .ok (nb2, vm2)) :
    nb2.verts.length = (refSet bm.faces).card := by
  have hInv : Inv nb2 vm2 := copyFaces_inv _ _ _ _ _ _ h Inv_empty
  have hkeys := copyFaces_keys _ _ _ _ _ _ h
  have hset : (vm2.map Prod.fst).toFinset = refSet bm.faces := by
    ext x
    rw [List.mem_toFinset, ← vmLookup_isSome_iff, hkeys x, mem_refSet]
    simp [vmLookup]
  calc nb2.verts.length = vm2.length := hInv.length_eq.symm
    _ = (vm2.map Prod.fst).length := by simp
    _ = (vm2.map Prod.fst).toFinset.card := (List.toFinset_card_of_nodup hInv.1).symm
    _ = (refSet bm.faces).card := by rw [hset]

/-- On a host-valid source, the copy loop never raises, and its result is
the selected faces rewritten through the (injective) correspondence map,
with one output vertex per distinct referenced source vertex. -/
theorem copyFaces_valid_spec {bm : BMesh} (hv : ValidBMesh bm) :
    ∃ nb vm, copyFaces bm.verts bm.faces ⟨[], []⟩ [] = .ok (nb, vm) ∧
      Inv nb vm ∧
      nb.faces = (bm.faces.filter fun f => f.select).map
        (fun f => f.verts.map fun i => (vmLookup vm i).getD 0) ∧
      nb.verts.length = (refSet bm.faces).card := by
  obtain ⟨nb, vm, h⟩ := copyFaces_ok_of_valid bm.verts bm.faces ⟨[], []⟩ [] []
    Inv_empty (by simp) (by simp) (by simp)
    (fun f hf hs => ⟨(hv.1 f hf hs).1, (hv.1 f hf hs).2, by simp⟩) hv.2
  refine ⟨nb, vm, h, copyFaces_inv _ _ _ _ _ _ h Inv_empty, ?_, copyFaces_count_verts h⟩
  have := copyFaces_faces _ _ _ _ _ _ h
  simpa using this

/-- On a source with no selected face, the copy loop is a no-op, so
`extract` takes the vertex-only fallback. -/
theorem extract_noFaceSel {bm : BMesh}
    (h : ∀ f ∈ bm.faces, f.select = false) :
    extract bm = .ok ⟨(bm.verts.filter fun v => v.select).map BMVert.co, []⟩ := by
  unfold extract
  rw [copyFaces_noSel bm.verts bm.faces ⟨[], []⟩ [] h]
  simp

/-! ### Concrete meshes used as witnesses and counter-model inputs -/

/-- A single selected quad on four distinct vertices. -/
def quadBM : BMesh :=
  ⟨[⟨(0, 0, 0), true⟩, ⟨(1, 0, 0), true⟩, ⟨(1, 1, 0), true⟩, ⟨(0, 1, 0), true⟩],
   [⟨[0, 1, 2, 3], true⟩]⟩

/-- Two selected triangles sharing the edge 1-2, four distinct vertices. -/
def twoTriBM : BMesh :=
  ⟨[⟨(0, 0, 0), true⟩, ⟨(1, 0, 0), true⟩, ⟨(0, 1, 0), true⟩, ⟨(1, 1, 0), true⟩],
   [⟨[0, 1, 2], true⟩, ⟨[1, 3, 2], true⟩]⟩

/-- Loose selected vertices, no face selected. -/
def looseBM : BMesh :=
  ⟨[⟨(0, 0, 0), true⟩, ⟨(1, 0, 0), false⟩, ⟨(0, 1, 0), true⟩], []⟩

/-- A selected face with a repeated vertex (degenerate). -/
def dupVertBM : BMesh :=
  ⟨[⟨(0, 0, 0), true⟩, ⟨(1, 0, 0), true⟩, ⟨(0, 1, 0), true⟩],
   [⟨[0, 1, 1], true⟩]⟩

/-- Two selected faces over the same vertex set. -/
def dupFaceBM : BMesh :=
  ⟨[⟨(0, 0, 0), true⟩, ⟨(1, 0, 0), true⟩, ⟨(0, 1, 0), true⟩],
   [⟨[0, 1, 2], true⟩, ⟨[2, 1, 0], true⟩]⟩

/-- The operator property defaults (0.6, 0.1, 0.5). -/
def defaultParams : Params := ⟨3/5, 1/10, 1/2⟩

/-- An edit-mode context over a given source mesh. -/
def editCtx (bm : BMesh) : Context :=
  ⟨"EDIT_MESH", some ⟨"MESH", bm⟩, [], [], none⟩

example : extract quadBM =
    .ok ⟨[(0, 0, 0), (1, 0, 0), (1, 1, 0), (0, 1, 0)], [[0, 1, 2, 3]]⟩ := rfl

example : extract twoTriBM =
    .ok ⟨[(0, 0, 0), (1, 0, 0), (0, 1, 0), (1, 1, 0)], [[0, 1, 2], [1, 3, 2]]⟩ := rfl

example : extract looseBM = .ok ⟨[(0, 0, 0), (0, 1, 0)], []⟩ := rfl

example : extract dupVertBM =
    .error "faces.new(verts): found the same (BMVert) used multiple times" := rfl

example : extract dupFaceBM = .error "faces.new(verts): face already exists" := rfl

/-! ### Branch lemmas for `execute` -/

theorem execute_success {ctx : Context} {p : Params} {eo : EditObject} {nb : NewBMesh}
    (h1 : ctx.mode = "EDIT_MESH") (h2 : ctx.edit_object = some eo)
    (h3 : eo.objtype = "MESH")
    (h4 : eo.data.verts.any (fun v => v.select) = true)
    (h5 : extract eo.data = .ok nb) :
    execute ctx p =
      ({ ctx with
          mode := "OBJECT",
          meshes := ctx.meshes ++ [("Grill_Base_Mesh", nb)],
          objects := (ctx.objects.map fun o => { o with selected := false }) ++
            [⟨"Grill_Base", nb, modifierStack p, true⟩],
          active_name := some "Grill_Base" },
       .finished "Non-destructively generated Grill_Base object.") := by
  unfold execute
  rw [h2]
  simp [h1, h3, h4, h5]

theorem execute_error {ctx : Context} {p : Params} {eo : EditObject} {e : String}
    (h1 : ctx.mode = "EDIT_MESH") (h2 : ctx.edit_object = some eo)
    (h3 : eo.objtype = "MESH")
    (h4 : eo.data.verts.any (fun v => v.select) = true)
    (h5 : extract eo.data = .error e) :
    execute ctx p =
      ({ ctx with meshes := ctx.meshes ++ [("Grill_Base_Mesh", ⟨[], []⟩)] },
       .exception e) := by
  unfold execute
  rw [h2]
  simp [h1, h3, h4, h5]

theorem execute_edit_object (ctx : Context) (p : Params) :
    (execute ctx p).1.edit_object = ctx.edit_object := by
  unfold execute
  by_cases h1 : ctx.mode = "EDIT_MESH"
  · cases h2 : ctx.edit_object with
    | none => simp [h1, h2]
    | some eo =>
      by_cases h3 : eo.objtype = "MESH"
      · by_cases h4 : eo.data.verts.any (fun v => v.select) = true
        · cases h5 : extract eo.data with
          | error e => simp [h1, h2, h3, h4, h5]
          | ok nb => simp [h1, h2, h3, h4, h5]
        · simp [h1, h2, h3, h4]
      · simp [h1, h2, h3]
  · simp [h1]

/-- A mesh with no selected vertex. -/
def noSelBM : BMesh := ⟨[⟨(0, 0, 0), false⟩, ⟨(1, 0, 0), false⟩], [⟨[0, 1], false⟩]⟩

theorem extract_valid_sel {bm : BMesh} (hv : ValidBMesh bm)
    (hne : bm.faces.any (fun f => f.select) = true) :
    ∃ nb vm, extract bm = .ok nb ∧
      nb.faces = (bm.faces.filter fun f => f.select).map
        (fun f => f.verts.map fun i => (vmLookup vm i).getD 0) ∧
      nb.verts.length = (refSet bm.faces).card := by
  obtain ⟨nb, vm, hcf, hInv, hfaces, hcount⟩ := copyFaces_valid_spec hv
  have hne2 : (bm.faces.filter fun f => f.select) ≠ [] := by
    obtain ⟨f, hf, hfs⟩ := List.any_eq_true.mp hne
    intro hnil
    have hmem : f ∈ bm.faces.filter fun f => f.select :=
      List.mem_filter.mpr ⟨hf, hfs⟩
    rw [hnil] at hmem
    exact List.not_mem_nil _ hmem
  have hfne : ¬ nb.faces.isEmpty = true := by
    rw [List.isEmpty_iff, hfaces]
    simpa using hne2
  refine ⟨nb, vm, ?_, hfaces, hcount⟩
  unfold extract
  rw [hcf]
  simp [hfne]

theorem extract_ok_of_valid {bm : BMesh} (hv : ValidBMesh bm) :
    ∃ nb, extract bm = .ok nb := by
  obtain ⟨nb, vm, hcf, _, _, _⟩ := copyFaces_valid_spec hv
  cases hE : nb.faces.isEmpty
  · refine ⟨nb, ?_⟩
    unfold extract
    rw [hcf]
    simp [hE]
  · refine ⟨{ nb with
      verts := nb.verts ++ (bm.verts.filter fun v => v.select).map BMVert.co }, ?_⟩
    unfold extract
    rw [hcf]
    simp [hE]

/-- C1: for every (host-valid) source mesh in which the set F of selected
faces is non-empty, `extract` produces an output mesh whose vertex count is
the number of distinct source vertices referenced by F and whose face
count is the size of F. -/
theorem C1_extract_counts (bm : BMesh) (hv : ValidBMesh bm)
    (hne : bm.faces.any (fun f => f.select) = true) :
    ∃ nb, extract bm = .ok nb ∧
      nb.verts.length = distinctRefCount bm ∧
      nb.faces.length = (bm.faces.filter fun f => f.select).length := by
  obtain ⟨nb, vm, hok, hfaces, hcount⟩ := extract_valid_sel hv hne
  refine ⟨nb, hok, hcount, ?_⟩
  rw [hfaces]
  simp

/-- Witness for C1 at the single selected quad. -/
theorem C1_extract_counts_witness :
    ∃ nb, extract quadBM = .ok nb ∧
      nb.verts.length = distinctRefCount quadBM ∧
      nb.faces.length = (quadBM.faces.filter fun f => f.select).length :=
  C1_extract_counts quadBM (by decide) (by decide)

/-- C2: on every (host-valid) source with selected faces, all output faces
are written through one common source-to-output vertex map `g`, so two
selected faces sharing a source vertex reference the same output vertex,
the output vertex count is the distinct referenced-source-vertex count,
and the two-triangles-sharing-an-edge scenario yields 4 vertices and 2
faces. -/
theorem C2_shared_vertex (bm : BMesh) (hv : ValidBMesh bm)
    (hne : bm.faces.any (fun f => f.select) = true) :
    (∃ nb g, extract bm = .ok nb ∧
      nb.faces = (bm.faces.filter fun f => f.select).map
        (fun f => f.verts.map g) ∧
      (∀ f1 ∈ bm.faces.filter (fun f => f.select),
       ∀ f2 ∈ bm.faces.filter (fun f => f.select),
       ∀ v, v ∈ f1.verts → v ∈ f2.verts →
         g v ∈ f1.verts.map g ∧ g v ∈ f2.verts.map g) ∧
      nb.verts.length = distinctRefCount bm) ∧
    extract twoTriBM =
      .ok ⟨[(0, 0, 0), (1, 0, 0), (0, 1, 0), (1, 1, 0)], [[0, 1, 2], [1, 3, 2]]⟩ := by
  constructor
  · obtain ⟨nb, vm, hok, hfaces, hcount⟩ := extract_valid_sel hv hne
    refine ⟨nb, fun i => (vmLookup vm i).getD 0, hok, hfaces, ?_, hcount⟩
    intro f1 _ f2 _ v hv1 hv2
    exact ⟨List.mem_map_of_mem _ hv1, List.mem_map_of_mem _ hv2⟩
  · rfl

/-- Witness for C2 at the two shared-edge triangles. -/
theorem C2_shared_vertex_witness :
    ∃ nb g, extract twoTriBM = .ok nb ∧
      nb.faces = (twoTriBM.faces.filter fun f => f.select).map
        (fun f => f.verts.map g) ∧
      (∀ f1 ∈ twoTriBM.faces.filter (fun f => f.select),
       ∀ f2 ∈ twoTriBM.faces.filter (fun f => f.select),
       ∀ v, v ∈ f1.verts → v ∈ f2.verts →
         g v ∈ f1.verts.map g ∧ g v ∈ f2.verts.map g) ∧
      nb.verts.length = distinctRefCount twoTriBM :=
  (C2_shared_vertex twoTriBM (by decide) (by decide)).1

/-- C9: the copy loop checks nothing before `faces.new`: on host-valid
input (selected faces with at least 3 distinct vertices, pairwise distinct
vertex sets) the constructor's error branch is unreachable, while a
repeated vertex in a selected face, or two selected faces over the same
vertex set, raises the ValueError after the new mesh data-block has
already been created. -/
theorem C9_no_degeneracy_check :
    (∀ bm : BMesh, ValidBMesh bm → ∃ nb, extract bm = .ok nb) ∧
    execute (editCtx dupVertBM) defaultParams =
      ({ editCtx dupVertBM with meshes := [("Grill_Base_Mesh", ⟨[], []⟩)] },
       .exception "faces.new(verts): found the same (BMVert) used multiple times") ∧
    execute (editCtx dupFaceBM) defaultParams =
      ({ editCtx dupFaceBM with meshes := [("Grill_Base_Mesh", ⟨[], []⟩)] },
       .exception "faces.new(verts): face already exists") :=
  ⟨fun _ hv => extract_ok_of_valid hv, rfl, rfl⟩

/-- Witness for C9's validity hypothesis at the single selected quad. -/
theorem C9_no_degeneracy_check_witness : ∃ nb, extract quadBM = .ok nb :=
  C9_no_degeneracy_check.1 quadBM (by decide)

/-- C10: whenever the output mesh has at least one face, every output
vertex is referenced by some output face (no orphan vertices). -/
theorem C10_no_orphan_vertices (bm : BMesh) (nb : NewBMesh)
    (h : extract bm = .ok nb) (hne : nb.faces ≠ []) :
    ∀ j, j < nb.verts.length → ∃ e ∈ nb.faces, j ∈ e := by
  unfold extract at h
  cases hcf : copyFaces bm.verts bm.faces ⟨[], []⟩ [] with
  | error e => rw [hcf] at h; exact Except.noConfusion h
  | ok r =>
    rw [hcf] at h
    have h2 : (if r.1.faces.isEmpty = true then
        Except.ok { r.1 with
          verts := r.1.verts ++ (bm.verts.filter fun v => v.select).map BMVert.co }
        else Except.ok r.1) = Except.ok nb := h
    cases hE : r.1.faces.isEmpty with
    | true =>
      rw [hE] at h2
      simp only [if_true] at h2
      injection h2 with h2
      exfalso
      apply hne
      rw [← h2]
      exact List.isEmpty_iff.mp hE
    | false =>
      rw [hE] at h2
      simp only [Bool.false_eq_true, if_false] at h2
      injection h2 with h2
      rw [← h2]
      exact copyFaces_cover bm.verts bm.faces ⟨[], []⟩ [] r.1 r.2 (by rw [hcf])
        (by intro j hj; simp at hj)

/-- Witness for C10: in the two-triangle extraction, vertex 3 is used by a
face. -/
theorem C10_no_orphan_vertices_witness :
    ∃ e ∈ (⟨[(0, 0, 0), (1, 0, 0), (0, 1, 0), (1, 1, 0)],
        [[0, 1, 2], [1, 3, 2]]⟩ : NewBMesh).faces, 3 ∈ e :=
  C10_no_orphan_vertices twoTriBM _ rfl (by decide) 3 (by decide)

theorem execute_cancel_mode {ctx : Context} {p : Params}
    (h1 : ctx.mode ≠ "EDIT_MESH") :
    execute ctx p = (ctx, .cancelled "Please switch to Edit Mode to select teeth.") := by
  unfold execute
  simp [h1]

theorem execute_cancel_noobj {ctx : Context} {p : Params}
    (h1 : ctx.mode = "EDIT_MESH") (h2 : ctx.edit_object = none) :
    execute ctx p = (ctx, .cancelled "An editable mesh object must be active.") := by
  unfold execute
  rw [h2]
  simp [h1]

theorem execute_cancel_notmesh {ctx : Context} {p : Params} {eo : EditObject}
    (h1 : ctx.mode = "EDIT_MESH") (h2 : ctx.edit_object = some eo)
    (h3 : ¬ eo.objtype = "MESH") :
    execute ctx p = (ctx, .cancelled "An editable mesh object must be active.") := by
  unfold execute
  rw [h2]
  simp [h1, h3]

theorem execute_cancel_nosel {ctx : Context} {p : Params} {eo : EditObject}
    (h1 : ctx.mode = "EDIT_MESH") (h2 : ctx.edit_object = some eo)
    (h3 : eo.objtype = "MESH")
    (h4 : eo.data.verts.any (fun v => v.select) = false) :
    execute ctx p = (ctx, .cancelled "You must select the teeth vertices first.") := by
  unfold execute
  rw [h2]
  simp [h1, h3, h4]

/-- C3: when the precondition checks pass up to selection but no vertex of
the source is selected, the operator reports the no-selection warning,
cancels, and leaves the whole context (meshes and objects included)
unchanged. -/
theorem C3_no_selection_cancelled (ctx : Context) (p : Params) (eo : EditObject)
    (h1 : ctx.mode = "EDIT_MESH") (h2 : ctx.edit_object = some eo)
    (h3 : eo.objtype = "MESH")
    (h4 : eo.data.verts.any (fun v => v.select) = false) :
    execute ctx p = (ctx, .cancelled "You must select the teeth vertices first.") :=
  execute_cancel_nosel h1 h2 h3 h4

/-- Witness for C3 at a mesh with no selected vertex. -/
theorem C3_no_selection_cancelled_witness :
    execute (editCtx noSelBM) defaultParams =
      (editCtx noSelBM, .cancelled "You must select the teeth vertices first.") :=
  C3_no_selection_cancelled (editCtx noSelBM) defaultParams ⟨"MESH", noSelBM⟩
    rfl rfl rfl rfl

/-- C4: with at least one selected vertex but no selected face, the run
finishes and the new mesh data-block holds one vertex per selected source
vertex and no faces. -/
theorem C4_vertex_only_fallback (ctx : Context) (p : Params) (eo : EditObject)
    (h1 : ctx.mode = "EDIT_MESH") (h2 : ctx.edit_object = some eo)
    (h3 : eo.objtype = "MESH")
    (h4 : eo.data.verts.any (fun v => v.select) = true)
    (h5 : ∀ f ∈ eo.data.faces, f.select = false) :
    ∃ ctx2 nb, execute ctx p =
      (ctx2, .finished "Non-destructively generated Grill_Base object.") ∧
      ctx2.meshes = ctx.meshes ++ [("Grill_Base_Mesh", nb)] ∧
      nb.verts.length = (eo.data.verts.filter fun v => v.select).length ∧
      nb.faces = [] := by
  have hex := extract_noFaceSel h5
  refine ⟨_, _, execute_success h1 h2 h3 h4 hex, rfl, ?_, rfl⟩
  simp

/-- Witness for C4 at loose selected vertices. -/
theorem C4_vertex_only_fallback_witness :
    ∃ ctx2 nb, execute (editCtx looseBM) defaultParams =
      (ctx2, .finished "Non-destructively generated Grill_Base object.") ∧
      ctx2.meshes = (editCtx looseBM).meshes ++ [("Grill_Base_Mesh", nb)] ∧
      nb.verts.length = (looseBM.verts.filter fun v => v.select).length ∧
      nb.faces = [] :=
  C4_vertex_only_fallback (editCtx looseBM) defaultParams ⟨"MESH", looseBM⟩
    rfl rfl rfl rfl (by decide)

/-- C5: every finished run leaves the new object carrying exactly the five
modifiers, in order: Weld (threshold 0.01), Solidify (the thickness
parameter, outward offset 1), voxel Remesh (the voxel-size parameter,
remove-disconnected on), Laplacian Smooth (5 iterations, volume
preservation on), Decimate (the ratio parameter). -/
theorem C5_modifier_stack (ctx : Context) (p : Params) (ctx2 : Context) (s : String)
    (h : execute ctx p = (ctx2, .finished s)) :
    ∃ o, ctx2.objects.getLast? = some o ∧
      o.modifiers = [ Modifier.weld "Grill_Weld" (1/100),
        Modifier.solidify "Grill_Thickness" p.thickness 1,
        Modifier.remesh "Grill_Remesh" "VOXEL" p.remesh_voxel_size true,
        Modifier.laplaciansmooth "Grill_LaplacianSmooth" 5 true,
        Modifier.decimate "Grill_Decimate" p.decimate_ratio ] := by
  by_cases h1 : ctx.mode = "EDIT_MESH"
  · cases h2 : ctx.edit_object with
    | none =>
      rw [execute_cancel_noobj h1 h2] at h
      exact absurd (congrArg Prod.snd h) (by simp)
    | some eo =>
      by_cases h3 : eo.objtype = "MESH"
      · by_cases h4 : eo.data.verts.any (fun v => v.select) = true
        · cases h5 : extract eo.data with
          | error e =>
            rw [execute_error h1 h2 h3 h4 h5] at h
            exact absurd (congrArg Prod.snd h) (by simp)
          | ok nb =>
            rw [execute_success h1 h2 h3 h4 h5, Prod.mk.injEq] at h
            obtain ⟨hctx, -⟩ := h
            refine ⟨⟨"Grill_Base", nb, modifierStack p, true⟩, ?_, rfl⟩
            rw [← hctx]
            exact List.getLast?_concat _
        · have h4f : eo.data.verts.any (fun v => v.select) = false := by
            simpa using h4
          rw [execute_cancel_nosel h1 h2 h3 h4f] at h
          exact absurd (congrArg Prod.snd h) (by simp)
      · rw [execute_cancel_notmesh h1 h2 h3] at h
        exact absurd (congrArg Prod.snd h) (by simp)
  · rw [execute_cancel_mode h1] at h
    exact absurd (congrArg Prod.snd h) (by simp)

/-- Witness for C5 at a finished run on the quad. -/
theorem C5_modifier_stack_witness :
    ∃ o, (execute (editCtx quadBM) defaultParams).1.objects.getLast? = some o ∧
      o.modifiers = [ Modifier.weld "Grill_Weld" (1/100),
        Modifier.solidify "Grill_Thickness" defaultParams.thickness 1,
        Modifier.remesh "Grill_Remesh" "VOXEL" defaultParams.remesh_voxel_size true,
        Modifier.laplaciansmooth "Grill_LaplacianSmooth" 5 true,
        Modifier.decimate "Grill_Decimate" defaultParams.decimate_ratio ] :=
  C5_modifier_stack (editCtx quadBM) defaultParams _ _ rfl

/-- A context outside edit-mesh mode. -/
def objectModeCtx : Context := ⟨"OBJECT", none, [], [], none⟩

/-- C6: on any precondition failure (wrong mode, no editable mesh object,
or no selected vertex) the run cancels and the context is returned
untouched: no mesh data-block, no object, no modifier is created. -/
theorem C6_no_partial_state (ctx : Context) (p : Params)
    (h : ctx.mode ≠ "EDIT_MESH" ∨
      (∀ eo, ctx.edit_object = some eo → ¬ eo.objtype = "MESH") ∨
      (∀ eo, ctx.edit_object = some eo →
        eo.data.verts.any (fun v => v.select) = false)) :
    (execute ctx p).1 = ctx ∧ ∃ w, (execute ctx p).2 = .cancelled w := by
  by_cases h1 : ctx.mode = "EDIT_MESH"
  · cases h2 : ctx.edit_object with
    | none =>
      rw [execute_cancel_noobj h1 h2]
      exact ⟨rfl, _, rfl⟩
    | some eo =>
      rcases h with h | h | h
      · exact absurd h1 h
      · rw [execute_cancel_notmesh h1 h2 (h eo h2)]
        exact ⟨rfl, _, rfl⟩
      · by_cases h3 : eo.objtype = "MESH"
        · rw [execute_cancel_nosel h1 h2 h3 (h eo h2)]
          exact ⟨rfl, _, rfl⟩
        · rw [execute_cancel_notmesh h1 h2 h3]
          exact ⟨rfl, _, rfl⟩
  · rw [execute_cancel_mode h1]
    exact ⟨rfl, _, rfl⟩

/-- Witness for C6 in object mode. -/
theorem C6_no_partial_state_witness :
    (execute objectModeCtx defaultParams).1 = objectModeCtx ∧
      ∃ w, (execute objectModeCtx defaultParams).2 = .cancelled w :=
  C6_no_partial_state objectModeCtx defaultParams (Or.inl (by decide))

/-- The source mesh visible through the context. -/
def sourceMesh (ctx : Context) : Option BMesh := ctx.edit_object.map EditObject.data

/-- C7: every run, successful or failed, leaves the source mesh as it was:
same mesh, hence same vertex count, face count, and vertex positions. -/
theorem C7_source_untouched (ctx : Context) (p : Params) :
    sourceMesh (execute ctx p).1 = sourceMesh ctx ∧
    (sourceMesh (execute ctx p).1).map (fun bm => bm.verts.length) =
      (sourceMesh ctx).map (fun bm => bm.verts.length) ∧
    (sourceMesh (execute ctx p).1).map (fun bm => bm.faces.length) =
      (sourceMesh ctx).map (fun bm => bm.faces.length) ∧
    (sourceMesh (execute ctx p).1).map (fun bm => bm.verts.map BMVert.co) =
      (sourceMesh ctx).map (fun bm => bm.verts.map BMVert.co) := by
  have h : sourceMesh (execute ctx p).1 = sourceMesh ctx := by
    unfold sourceMesh
    rw [execute_edit_object]
  exact ⟨h, by rw [h], by rw [h], by rw [h]⟩

theorem clampProp_mem {lo hi : Rat} (x : Rat) (h : lo ≤ hi) :
    lo ≤ clampProp lo hi x ∧ clampProp lo hi x ≤ hi := by
  unfold clampProp
  split_ifs with h1 h2
  · exact ⟨le_refl lo, h⟩
  · exact ⟨h, le_refl hi⟩
  · constructor <;> linarith

/-- C8: property assignment clamps each of the three parameters into its
declared range, and the values the stack stores for Solidify, Remesh and
Decimate are exactly those clamped values, hence always in range. -/
theorem C8_parameter_clamping (t v r : Rat) :
    modifierStack (mkProps t v r) =
      [ Modifier.weld "Grill_Weld" (1/100),
        Modifier.solidify "Grill_Thickness" (clampProp (1/5) 5 t) 1,
        Modifier.remesh "Grill_Remesh" "VOXEL" (clampProp (1/100) 1 v) true,
        Modifier.laplaciansmooth "Grill_LaplacianSmooth" 5 true,
        Modifier.decimate "Grill_Decimate" (clampProp (1/20) 1 r) ] ∧
    (1/5 ≤ (mkProps t v r).thickness ∧ (mkProps t v r).thickness ≤ 5) ∧
    (1/100 ≤ (mkProps t v r).remesh_voxel_size ∧
      (mkProps t v r).remesh_voxel_size ≤ 1) ∧
    (1/20 ≤ (mkProps t v r).decimate_ratio ∧ (mkProps t v r).decimate_ratio ≤ 1) :=
  ⟨rfl, clampProp_mem t (by norm_num), clampProp_mem v (by norm_num),
    clampProp_mem r (by norm_num)⟩

end Grillz
